import Mathlib

/-!
# Verification of the arbitrage detection core

Shallow embedding of the arbitrage engine:

* `arbitrage/models/market.py` — market data types,
* `arbitrage/strategies/simple_spread.py` — executable price walk, taker
  fees and the two-venue spread strategy,
* `arbitrage/strategies/multi_leg.py` — the multi-leg P2P strategy,
* `arbitrage/services/mega_core.py` — the per-symbol best-ask/best-bid
  aggregation and the scan loop `scan_symbols_once`.

Python floats are modelled as exact rationals (`ℚ`).  The human-readable
string fields of `Opportunity` (`description`, `legs`) carry no semantic
content used by any property and are elided.  A Python exception escaping
a function is modelled by `Except.error`.
-/

namespace Crypto2

/-! ## Data model (`arbitrage/models/market.py`) -/

structure PriceLevel where
  price : ℚ
  amount : ℚ
deriving DecidableEq, Repr

/-- `bids` are sorted descending by price, `asks` ascending, as produced by
the connectors; the engine itself never re-sorts them. -/
structure OrderBook where
  symbol : String
  bids : List PriceLevel
  asks : List PriceLevel
  exchange_id : String
deriving DecidableEq, Repr

structure TradingFees where
  maker_rate : ℚ
  taker_rate : ℚ
deriving DecidableEq, Repr

structure P2PQuote where
  asset : String
  fiat : String
  trade_type : String
  price : ℚ
  available_amount : ℚ
  min_amount : ℚ
deriving DecidableEq, Repr

inductive OppKind
  | CEX_CEX
  | P2P_CEX
  | CEX_Triangular
  | Multi_Leg
deriving DecidableEq, Repr

/-- `Opportunity` record; the `description` and `legs` strings of the source
are elided (they are human-readable renderings of the numeric fields). -/
structure Opportunity where
  kind : OppKind
  expected_profit_usdt : ℚ
  expected_roi_pct : ℚ
deriving DecidableEq, Repr

inductive Side
  | buy
  | sell
deriving DecidableEq, Repr

/-! ## Executable price model (`simple_spread.py`, `_executable_price`)

The Python function walks the levels of one side, accumulating
`take = min(level.amount, remaining)` notional per level and breaking as
soon as `remaining <= 0`; after the loop it returns `None` when
`remaining > 0` and `cost / size` otherwise.  The `buy` branch (over
`asks`, accumulator named `cost`) and the `sell` branch (over `bids`,
accumulator named `proceeds`) are textually identical walks, captured once
by `walkLevels` over `sideLevels`. -/

/-- One pass of the level walk: returns `(accumulated notional, remaining)`. -/
def walkLevels : List PriceLevel → ℚ → ℚ → ℚ × ℚ
  | [], remaining, acc => (acc, remaining)
  | l :: ls, remaining, acc =>
    let take := min l.amount remaining
    let acc2 := acc + take * l.price
    let remaining2 := remaining - take
    if remaining2 ≤ 0 then (acc2, remaining2) else walkLevels ls remaining2 acc2

/-- The side walked: `buy` walks `asks`, `sell` walks `bids`. -/
def sideLevels (order_book : OrderBook) (side : Side) : List PriceLevel :=
  match side with
  | Side.buy => order_book.asks
  | Side.sell => order_book.bids

/-- `_executable_price(order_book, side, size)`. -/
def executable_price (order_book : OrderBook) (side : Side) (size : ℚ) : Option ℚ :=
  let w := walkLevels (sideLevels order_book side) size 0
  if 0 < w.2 then none else some (w.1 / size)

/-! Spec-side definitions for the executable price model (§4.1 of the
spec): total depth of a side, and the total notional of the
size-weighted walk, "taking min(levelAmount, remaining) at each
successive level", written without the source's early break. -/

def totalAmount (levels : List PriceLevel) : ℚ :=
  (levels.map PriceLevel.amount).sum

/-- Modelled from the spec: the total notional accumulated by taking
`min(levelAmount, remaining)` at each successive level, over all levels. -/
def specNotional : List PriceLevel → ℚ → ℚ
  | [], _ => 0
  | l :: ls, remaining =>
    min l.amount remaining * l.price + specNotional ls (remaining - min l.amount remaining)

/-! ### Walk lemmas -/

theorem walkLevels_snd_nonneg (levels : List PriceLevel) :
    ∀ r acc : ℚ, 0 ≤ r → 0 ≤ (walkLevels levels r acc).2 := by
  induction levels with
  | nil => intro r acc hr; simp [walkLevels]; exact hr
  | cons l ls ih =>
    intro r acc hr
    have htake : min l.amount r ≤ r := min_le_right _ _
    have h2 : 0 ≤ r - min l.amount r := by linarith
    by_cases hbr : r - min l.amount r ≤ 0
    · simp [walkLevels, hbr]
    · simpa [walkLevels, hbr] using ih _ _ h2

theorem totalAmount_nonneg (levels : List PriceLevel)
    (h : ∀ l ∈ levels, 0 ≤ l.amount) : 0 ≤ totalAmount levels := by
  induction levels with
  | nil => simp [totalAmount]
  | cons l ls ih =>
    have h0 : 0 ≤ l.amount := h l (by simp)
    have h1 : 0 ≤ totalAmount ls := ih (fun x hx => h x (by simp [hx]))
    simp only [totalAmount, List.map_cons, List.sum_cons] at *
    linarith

theorem walkLevels_snd_eq (levels : List PriceLevel) :
    ∀ r acc : ℚ, 0 ≤ r → (∀ l ∈ levels, 0 ≤ l.amount) →
      (walkLevels levels r acc).2 = max (r - totalAmount levels) 0 := by
  induction levels with
  | nil =>
    intro r acc hr _
    simp [walkLevels, totalAmount, max_eq_left hr]
  | cons l ls ih =>
    intro r acc hr hamt
    have ha : 0 ≤ l.amount := hamt l (by simp)
    have hT : 0 ≤ totalAmount ls :=
      totalAmount_nonneg ls (fun x hx => hamt x (by simp [hx]))
    have htake : min l.amount r ≤ r := min_le_right _ _
    have h2 : 0 ≤ r - min l.amount r := by linarith
    by_cases hbr : r - min l.amount r ≤ 0
    · -- the walk breaks: the remainder is exactly 0, and the level absorbed r
      have hz : r - min l.amount r = 0 := le_antisymm hbr h2
      have hmin : min l.amount r = r := by linarith
      have hle : r ≤ l.amount := by
        rcases min_cases l.amount r with ⟨h1, _⟩ | ⟨_, h1⟩
        · rw [hmin] at h1; linarith
        · linarith
      have : max (r - totalAmount (l :: ls)) 0 = 0 := by
        apply max_eq_right
        simp only [totalAmount, List.map_cons, List.sum_cons]
        have : totalAmount ls = (ls.map PriceLevel.amount).sum := rfl
        rw [this] at hT
        linarith
      simp [walkLevels, hbr, hz, this]
    · -- the walk continues: the level was fully consumed
      have hlt : 0 < r - min l.amount r := lt_of_not_le hbr
      have hmin : min l.amount r = l.amount := by
        rcases min_cases l.amount r with ⟨h1, _⟩ | ⟨h1, h2'⟩
        · exact h1
        · rw [h1] at hlt; linarith
      have := ih (r - min l.amount r) (acc + min l.amount r * l.price) h2
        (fun x hx => hamt x (by simp [hx]))
      simp only [walkLevels, hbr, if_false]
      rw [this, hmin]
      have : r - l.amount - totalAmount ls = r - totalAmount (l :: ls) := by
        simp only [totalAmount, List.map_cons, List.sum_cons]; ring
      rw [this]

theorem specNotional_zero (levels : List PriceLevel)
    (hamt : ∀ l ∈ levels, 0 ≤ l.amount) : specNotional levels 0 = 0 := by
  induction levels with
  | nil => rfl
  | cons l ls ih =>
    have ha : 0 ≤ l.amount := hamt l (by simp)
    have hmin : min l.amount (0 : ℚ) = 0 := min_eq_right ha
    simp [specNotional, hmin, ih (fun x hx => hamt x (by simp [hx]))]

theorem walkLevels_fst_eq (levels : List PriceLevel) :
    ∀ r acc : ℚ, 0 ≤ r → (∀ l ∈ levels, 0 ≤ l.amount) →
      (walkLevels levels r acc).1 = acc + specNotional levels r := by
  induction levels with
  | nil => intro r acc _ _; simp [walkLevels, specNotional]
  | cons l ls ih =>
    intro r acc hr hamt
    have htake : min l.amount r ≤ r := min_le_right _ _
    have h2 : 0 ≤ r - min l.amount r := by linarith
    by_cases hbr : r - min l.amount r ≤ 0
    · have hz : r - min l.amount r = 0 := le_antisymm hbr h2
      have htail : specNotional ls (r - min l.amount r) = 0 := by
        rw [hz]; exact specNotional_zero ls (fun x hx => hamt x (by simp [hx]))
      simp [walkLevels, hbr, specNotional, htail]
    · have := ih (r - min l.amount r) (acc + min l.amount r * l.price) h2
        (fun x hx => hamt x (by simp [hx]))
      simp only [walkLevels, hbr, if_false]
      rw [this]
      simp [specNotional]; ring

/-! ## Taker fee application (`simple_spread.py`, `_apply_taker_fee`) -/

/-- `_apply_taker_fee(unit_price, size, fees, side)`; the `size` argument is
unused in the source as well. -/
def apply_taker_fee (unit_price : ℚ) (size : ℚ) (fees : TradingFees) (side : Side) : ℚ :=
  match side with
  | Side.buy => unit_price * (1 + fees.taker_rate)
  | Side.sell => unit_price * (1 - fees.taker_rate)

/-! ## Two-venue spread strategy (`simple_spread.py`, `find_cex_cex_opportunity`)

The source starts with `book_a.asks[0].price`, which raises `IndexError`
when `book_a.asks` is empty; that escaping exception is modelled as
`Except.error`.  All other paths return normally (`Except.ok`). -/

def find_cex_cex_opportunity (base_symbol quote_symbol : String) (size_in_quote : ℚ)
    (book_a book_b : OrderBook) (fees_a fees_b : TradingFees)
    (threshold_pct : ℚ) (transfer_fee_in_base : ℚ) :
    Except String (Option Opportunity) :=
  match book_a.asks with
  | [] => Except.error "IndexError: list index out of range"
  | a0 :: _ =>
    let approx_base_size := size_in_quote / max a0.price (1 / 1000000000)
    match executable_price book_a Side.buy approx_base_size with
    | none => Except.ok none
    | some buy_avg_price_a =>
      let base_amount := size_in_quote / buy_avg_price_a
      let buy_unit_cost_with_fee := apply_taker_fee buy_avg_price_a base_amount fees_a Side.buy
      let base_after_transfer := max (base_amount - transfer_fee_in_base) 0
      if base_after_transfer ≤ 0 then Except.ok none
      else
        match executable_price book_b Side.sell base_after_transfer with
        | none => Except.ok none
        | some sell_avg_price_b =>
          let sell_unit_price_with_fee :=
            apply_taker_fee sell_avg_price_b base_after_transfer fees_b Side.sell
          let cost_quote := buy_unit_cost_with_fee * base_amount
          let proceeds_quote := sell_unit_price_with_fee * base_after_transfer
          let profit := proceeds_quote - cost_quote
          let roi_pct := if cost_quote > 0 then 100 * (profit / cost_quote) else 0
          if roi_pct ≥ threshold_pct then
            Except.ok (some (Opportunity.mk OppKind.CEX_CEX profit roi_pct))
          else Except.ok none

/-! ## Multi-leg strategy (`multi_leg.py`, `plan_multi_leg_path`) -/

def plan_multi_leg_path (p2p_buy : Option P2PQuote) (spot_buy_price : Option ℚ)
    (spot_buy_fees : TradingFees) (transfer_fee_asset : ℚ)
    (spot_sell_price : Option ℚ) (spot_sell_fees : TradingFees)
    (size_in_fiat : ℚ) (fiat : String) (asset : String) : Option Opportunity :=
  match p2p_buy, spot_buy_price, spot_sell_price with
  | some p2p, some _, some sell_price =>
    let asset_amount_after_p2p := size_in_fiat / p2p.price
    let asset_amount_after_transfer := max (asset_amount_after_p2p - transfer_fee_asset) 0
    if asset_amount_after_transfer ≤ 0 then none
    else
      let sell_unit_after_fee := sell_price * (1 - spot_sell_fees.taker_rate)
      let proceeds_fiat := sell_unit_after_fee * asset_amount_after_transfer
      let cost_fiat := size_in_fiat
      let profit_fiat := proceeds_fiat - cost_fiat
      let roi_pct := if cost_fiat > 0 then 100 * (profit_fiat / cost_fiat) else 0
      if roi_pct ≤ 0 then none
      else some (Opportunity.mk OppKind.Multi_Leg profit_fiat roi_pct)
  | _, _, _ => none

/-! ## Concurrent scan core (`mega_core.py`, `scan_symbols_once`)

The network layer is abstracted into the data it delivers:

* `responses sym` is the list of per-venue `fetch_best_levels` results for
  `sym` — one entry per venue that lists the symbol, in the completion
  order of the futures (a venue whose fetch failed delivered
  `(None, None)`); the thread pool only determines this order;
* `vols ex sym` models `ex_vols.get(ex, {}).get(sym, 0.0)` — the fetched
  24h quote volume, with absent entries already defaulted to `0`;
* `limits ex sym` models `ex_limits.get(ex, {}).get(sym, MarketLimits())`
  with absent entries defaulted to zero limits. -/

structure MarketLimits where
  min_amount : ℚ := 0
  min_cost : ℚ := 0
deriving DecidableEq, Repr

/-- One venue's `fetch_best_levels` result for a symbol. -/
structure VenueQuote where
  ex_id : String
  ask : Option ℚ
  bid : Option ℚ
deriving DecidableEq, Repr

/-- The running best-ask/best-bid trackers of the per-symbol loop. -/
structure BestLevels where
  best_ask_val : Option ℚ
  best_ask_ex : Option String
  best_bid_val : Option ℚ
  best_bid_ex : Option String
deriving DecidableEq, Repr

def initBest : BestLevels := BestLevels.mk none none none none

/-- Processing one completed future: `if ask is not None and
(best_ask_val is None or ask < best_ask_val): update`, then the same for
the bid with `>`. -/
def bestStep (st : BestLevels) (r : VenueQuote) : BestLevels :=
  let st1 :=
    match r.ask, st.best_ask_val with
    | some a, none => BestLevels.mk (some a) (some r.ex_id) st.best_bid_val st.best_bid_ex
    | some a, some v =>
      if a < v then BestLevels.mk (some a) (some r.ex_id) st.best_bid_val st.best_bid_ex
      else st
    | none, _ => st
  match r.bid, st1.best_bid_val with
  | some b, none => BestLevels.mk st1.best_ask_val st1.best_ask_ex (some b) (some r.ex_id)
  | some b, some v =>
    if v < b then BestLevels.mk st1.best_ask_val st1.best_ask_ex (some b) (some r.ex_id)
    else st1
  | none, _ => st1

/-- The full per-symbol min/max reduction over the completed futures. -/
def foldBest (rs : List VenueQuote) : BestLevels := rs.foldl bestStep initBest

/-- Python `x or d` on an optional string (`None` and `""` are falsy). -/
def pyOr (o : Option String) (d : String) : String :=
  match o with
  | none => d
  | some s => if s = "" then d else s

/-- Python float truthiness of a limit field (`0.0` is falsy). -/
def truthy (q : ℚ) : Prop := q ≠ 0

instance (q : ℚ) : Decidable (truthy q) := by unfold truthy; infer_instance

/-- One result row `(sym, ask_ex, ask, bid_ex, bid, roi, profit)`. -/
structure ScanRow where
  sym : String
  ask_ex : String
  ask_val : ℚ
  bid_ex : String
  bid_val : ℚ
  roi : ℚ
  profit : ℚ
deriving DecidableEq, Repr

/-- The body of the per-symbol loop of `scan_symbols_once`: aggregation,
validity gate, volume filter, lot filter, ROI computation and emission.
Returns the emitted row, or `none` when the symbol is skipped
(`continue`) or fails the threshold. -/
def scan_symbol (responses : List VenueQuote)
    (vols : String → String → ℚ) (limits : String → String → MarketLimits)
    (sym : String) (size threshold min_volume : ℚ) (enforce_lots : Bool) :
    Option ScanRow :=
  let st := foldBest responses
  match st.best_ask_val, st.best_bid_val with
  | some best_ask_val, some best_bid_val =>
    if st.best_ask_ex = st.best_bid_ex then none
    else
      let va := vols (pyOr st.best_ask_ex "") sym
      let vb := vols (pyOr st.best_bid_ex "") sym
      if min_volume > 0 ∧ (va < min_volume ∨ vb < min_volume) then none
      else
        let base_amount0 := size / best_ask_val
        let la := limits (pyOr st.best_ask_ex "") sym
        let lb := limits (pyOr st.best_bid_ex "") sym
        if enforce_lots = true ∧
            ((truthy la.min_amount ∧ base_amount0 < la.min_amount) ∨
             (truthy la.min_cost ∧ size < la.min_cost) ∨
             (truthy lb.min_amount ∧ base_amount0 < lb.min_amount)) then none
        else
          let cost := size
          let base_amount := size / best_ask_val
          let proceeds := best_bid_val * base_amount
          let profit := proceeds - cost
          let roi := if cost > 0 then 100 * profit / cost else 0
          if roi ≥ threshold then
            some (ScanRow.mk sym (pyOr st.best_ask_ex "?") best_ask_val
              (pyOr st.best_bid_ex "?") best_bid_val roi profit)
          else none
  | _, _ => none

/-- `scan_symbols_once`, with the fetched data passed in as described
above: the appended rows are the per-symbol emissions in symbol order. -/
def scan_symbols_once (symbols : List String)
    (responses : String → List VenueQuote)
    (vols : String → String → ℚ) (limits : String → String → MarketLimits)
    (size threshold min_volume : ℚ) (enforce_lots : Bool) : List ScanRow :=
  symbols.filterMap
    (fun sym => scan_symbol (responses sym) vols limits sym size threshold min_volume enforce_lots)

/-! ## Claim C1 -/

/-- C1: for every order book (amounts nonnegative, per the data model
invariant) and every size `s > 0`, if `s` is at most the total level
amount of the walked side then `_executable_price` returns exactly
`totalNotional / s`, the size-weighted average obtained by taking
`min(levelAmount, remaining)` at each successive level; and if `s`
exceeds that side's total depth (in particular on an empty side) it
returns `none`, never a partial or zero price. -/
theorem executable_price_correct (book : OrderBook) (side : Side) (s : ℚ)
    (hs : 0 < s) (hamt : ∀ l ∈ sideLevels book side, 0 ≤ l.amount) :
    (s ≤ totalAmount (sideLevels book side) →
      executable_price book side s = some (specNotional (sideLevels book side) s / s)) ∧
    (totalAmount (sideLevels book side) < s →
      executable_price book side s = none) := by
  have hr : (0:ℚ) ≤ s := le_of_lt hs
  have hsnd := walkLevels_snd_eq (sideLevels book side) s 0 hr hamt
  have hfst := walkLevels_fst_eq (sideLevels book side) s 0 hr hamt
  constructor
  · intro hle
    have h0 : max (s - totalAmount (sideLevels book side)) 0 = 0 :=
      max_eq_right (by linarith)
    simp only [executable_price]
    rw [hsnd, h0, hfst]
    simp
  · intro hgt
    have h0 : max (s - totalAmount (sideLevels book side)) 0 =
        s - totalAmount (sideLevels book side) :=
      max_eq_left (by linarith)
    simp only [executable_price]
    rw [hsnd, h0]
    have : 0 < s - totalAmount (sideLevels book side) := by linarith
    simp [this]

def bookW : OrderBook :=
  OrderBook.mk "BTC/USDT" [PriceLevel.mk 8 2, PriceLevel.mk 7 3]
    [PriceLevel.mk 10 2, PriceLevel.mk 20 3] "binance"

theorem executable_price_correct_witness :
    (executable_price bookW Side.buy 4 =
      some (specNotional (sideLevels bookW Side.buy) 4 / 4)) ∧
    executable_price bookW Side.buy 6 = none := by
  constructor
  · exact (executable_price_correct bookW Side.buy 4 (by norm_num) (by decide)).1
      (by norm_num [totalAmount, sideLevels, bookW])
  · exact (executable_price_correct bookW Side.buy 6 (by norm_num) (by decide)).2
      (by norm_num [totalAmount, sideLevels, bookW])

/-! ## Claim C2

The §8 scenario books, and the shared zero-fee schedule. -/

def bookA8 : OrderBook := OrderBook.mk "BTC/USDT"
  [PriceLevel.mk 9990 5, PriceLevel.mk 9980 10]
  [PriceLevel.mk 10010 5, PriceLevel.mk 10020 10] "a"

def bookB8 : OrderBook := OrderBook.mk "BTC/USDT"
  [PriceLevel.mk 10120 5, PriceLevel.mk 10110 10]
  [PriceLevel.mk 10130 5] "b"

def zeroFees : TradingFees := TradingFees.mk 0 0

/-- C2, counterexample: the claim states `roiPct = 100 × profit / cost`
with roiPct `0` only `if cost is 0`.  At the (degenerate) input below the
code reaches the profit step with `cost_quote = -1000 < 0` (nonzero), so
the claim's roiPct is `100 × (1500 / -1000) = -150`, which is below the
threshold `-100` — by the claim no opportunity may be returned — yet the
code sets `roi_pct` to `0` (its guard is `cost_quote > 0`, not
`cost_quote ≠ 0`) and returns an opportunity carrying roiPct `0 ≠ -150`. -/
theorem find_cex_cex_roi_guard_cex :
    find_cex_cex_opportunity "X" "Q" (-1000)
        (OrderBook.mk "X/Q" [] [PriceLevel.mk 10 100] "a")
        (OrderBook.mk "X/Q" [PriceLevel.mk 5 200] [] "b")
        zeroFees zeroFees (-100) (-200) =
      Except.ok (some (Opportunity.mk OppKind.CEX_CEX 1500 0)) ∧
    100 * ((1500 : ℚ) / (-1000)) < -100 ∧
    (0 : ℚ) ≠ 100 * ((1500 : ℚ) / (-1000)) := by
  refine ⟨?_, by norm_num, by norm_num⟩
  norm_num [find_cex_cex_opportunity, executable_price, walkLevels, sideLevels,
    apply_taker_fee, zeroFees, max_def]

/-- C2 (amended): whenever `find_cex_cex_opportunity` reaches the profit
step (nonempty asks, both executable prices available, positive
post-transfer amount), it computes `profit = proceeds - cost` with
`cost` the fee-adjusted buy unit cost times the base amount and
`proceeds` the fee-adjusted sell unit price times the post-transfer
amount, `roiPct = 100 × profit / cost` when `cost > 0` and `0`
otherwise, and returns a CEX_CEX opportunity carrying exactly that
profit and roiPct if and only if `roiPct ≥ thresholdPct`, returning
`none` otherwise. -/
theorem find_cex_cex_profit_step (base_symbol quote_symbol : String)
    (size : ℚ) (book_a book_b : OrderBook) (fees_a fees_b : TradingFees)
    (threshold tfee : ℚ) (a0 : PriceLevel) (rest : List PriceLevel) (bap sap : ℚ)
    (hA : book_a.asks = a0 :: rest)
    (hbuy : executable_price book_a Side.buy (size / max a0.price (1 / 1000000000)) = some bap)
    (hpos : 0 < size / bap - tfee)
    (hsell : executable_price book_b Side.sell (max (size / bap - tfee) 0) = some sap) :
    find_cex_cex_opportunity base_symbol quote_symbol size book_a book_b
        fees_a fees_b threshold tfee =
      Except.ok (
        let cost := bap * (1 + fees_a.taker_rate) * (size / bap)
        let proceeds := sap * (1 - fees_b.taker_rate) * max (size / bap - tfee) 0
        let profit := proceeds - cost
        let roi := if cost > 0 then 100 * (profit / cost) else 0
        if roi ≥ threshold then some (Opportunity.mk OppKind.CEX_CEX profit roi) else none) := by
  have hmax : ¬ max (size / bap - tfee) 0 ≤ 0 :=
    not_le.mpr (lt_max_iff.mpr (Or.inl hpos))
  unfold find_cex_cex_opportunity
  rw [hA]
  simp only [hbuy, hsell, apply_taker_fee, if_neg hmax]
  rw [apply_ite Except.ok]

/-- C2 witness: the §8 scenario — `bookA` asks `[(10010,5),(10020,10)]`,
`bookB` bids `[(10120,5),(10110,10)]`, size 1000 quote units, zero fees
and transfer fee, threshold 0.5% — yields a CEX_CEX opportunity with
ROI `1100/1001 ≈ 1.10%` (`= 100 × (10120 − 10010)/10010`). -/
theorem find_cex_cex_profit_step_witness :
    find_cex_cex_opportunity "BTC" "USDT" 1000 bookA8 bookB8 zeroFees zeroFees (1/2) 0 =
      Except.ok (some (Opportunity.mk OppKind.CEX_CEX (11000/1001) (1100/1001))) := by
  have h := find_cex_cex_profit_step "BTC" "USDT" 1000 bookA8 bookB8 zeroFees zeroFees
    (1/2) 0 (PriceLevel.mk 10010 5) [PriceLevel.mk 10020 10] 10010 10120
    rfl
    (by norm_num [executable_price, walkLevels, sideLevels, bookA8, max_def])
    (by norm_num)
    (by norm_num [executable_price, walkLevels, sideLevels, bookB8, max_def])
  rw [h]
  norm_num [zeroFees, max_def]

/-! ## Claim C3 -/

/-- C3, counterexample: on a `bookA` whose asks sequence is empty, the
claim says the function returns `none` and does not raise; in fact the
top-of-book access `book_a.asks[0].price` raises `IndexError` before the
liquidity check is ever reached. -/
theorem find_cex_cex_empty_asks_raises :
    find_cex_cex_opportunity "BTC" "USDT" 1000
        (OrderBook.mk "BTC/USDT" [PriceLevel.mk 9990 5] [] "a")
        bookB8 zeroFees zeroFees (1/2) 0 =
      Except.error "IndexError: list index out of range" := rfl

/-- C3 (amended): for every call in which `bookA` has at least one ask
level and cannot fill the approximated buy quantity, the function
returns `none` (insufficient liquidity) and does not raise; a `bookA`
with empty asks instead raises `IndexError` from the top-of-book
access (callers guard this themselves). -/
theorem find_cex_cex_insufficient_buy (base_symbol quote_symbol : String)
    (size : ℚ) (book_a book_b : OrderBook) (fees_a fees_b : TradingFees)
    (threshold tfee : ℚ) (a0 : PriceLevel) (rest : List PriceLevel)
    (hA : book_a.asks = a0 :: rest)
    (hbuy : executable_price book_a Side.buy (size / max a0.price (1 / 1000000000)) = none) :
    find_cex_cex_opportunity base_symbol quote_symbol size book_a book_b
      fees_a fees_b threshold tfee = Except.ok none := by
  unfold find_cex_cex_opportunity
  rw [hA]
  simp only [hbuy]

/-- C3 witness: a one-level ask book holding only `0.01` base units
cannot fill the roughly `0.0999` base units approximated from 1000 quote
units, so the call returns `none` without raising. -/
theorem find_cex_cex_insufficient_buy_witness :
    find_cex_cex_opportunity "BTC" "USDT" 1000
        (OrderBook.mk "BTC/USDT" [] [PriceLevel.mk 10010 (1/100)] "a")
        bookB8 zeroFees zeroFees (1/2) 0 = Except.ok none :=
  find_cex_cex_insufficient_buy "BTC" "USDT" 1000 _ bookB8 zeroFees zeroFees
    (1/2) 0 (PriceLevel.mk 10010 (1/100)) [] rfl
    (by norm_num [executable_price, walkLevels, sideLevels, max_def])

/-! ## Claim C7 -/

/-- C7: on every input where the buy average price has been computed, if
subtracting `transferFeeInBase` from the recomputed base quantity
`size / buyAvgPrice` leaves a remainder `≤ 0`, the function returns
`none`. -/
theorem find_cex_cex_transfer_fee_abort (base_symbol quote_symbol : String)
    (size : ℚ) (book_a book_b : OrderBook) (fees_a fees_b : TradingFees)
    (threshold tfee : ℚ) (a0 : PriceLevel) (rest : List PriceLevel) (bap : ℚ)
    (hA : book_a.asks = a0 :: rest)
    (hbuy : executable_price book_a Side.buy (size / max a0.price (1 / 1000000000)) = some bap)
    (hle : size / bap - tfee ≤ 0) :
    find_cex_cex_opportunity base_symbol quote_symbol size book_a book_b
      fees_a fees_b threshold tfee = Except.ok none := by
  have hmax : max (size / bap - tfee) 0 ≤ 0 := max_le hle le_rfl
  unfold find_cex_cex_opportunity
  rw [hA]
  simp only [hbuy, if_pos hmax]

/-- C7 witness: on the §8 scenario books a transfer fee of one full base
unit zeroes out the roughly `0.0999`-unit position, so the call returns
`none`. -/
theorem find_cex_cex_transfer_fee_abort_witness :
    find_cex_cex_opportunity "BTC" "USDT" 1000 bookA8 bookB8 zeroFees zeroFees (1/2) 1 =
      Except.ok none :=
  find_cex_cex_transfer_fee_abort "BTC" "USDT" 1000 bookA8 bookB8 zeroFees zeroFees
    (1/2) 1 (PriceLevel.mk 10010 5) [PriceLevel.mk 10020 10] 10010
    rfl
    (by norm_num [executable_price, walkLevels, sideLevels, bookA8, max_def])
    (by norm_num)

/-! ## Claim C5 -/

/-- The §8 multi-leg scenario quote: P2P price 1.01 fiat per asset. -/
def quoteW : P2PQuote := P2PQuote.mk "USDT" "RUB" "BUY" (101/100) 100000 100

/-- Taker rate 0.001, per the §8 multi-leg scenario. -/
def feesW : TradingFees := TradingFees.mk (1/1000) (1/1000)

/-- C5, counterexample: on the stated scenario the code's exact profit is
`179307403/10100000 ≈ 17.753` and its ROI is `≈ 1.7753%`, not within
`1e-3` relative tolerance of the claim's `17.88` resp. `1.79%` (the
claim's `proceeds ≈ 1017.88` comes from rounding `sellUnitNet` to
`1.029`; the exact proceeds are `≈ 1017.753`). -/
theorem plan_multi_leg_scenario_cex :
    plan_multi_leg_path (some quoteW) (some 1) feesW 1 (some (103/100)) feesW 1000 "RUB" "USDT" =
      some (Opportunity.mk OppKind.Multi_Leg (179307403/10100000) (179307403/101000000)) ∧
    ¬ (|(179307403/10100000 : ℚ) - 1788/100| ≤ (1/1000) * (1788/100)) ∧
    ¬ (|(179307403/101000000 : ℚ) - 179/100| ≤ (1/1000) * (179/100)) := by
  refine ⟨?_, ?_, ?_⟩
  · norm_num [plan_multi_leg_path, quoteW, feesW, max_def]
  · rw [abs_le]; norm_num
  · rw [abs_le]; norm_num

/-- C5 (amended): on the scenario `p2pBuyQuote.price = 1.01`,
`spotSellPrice = 1.03`, `takerRate = 0.001`, `transferFeeAsset = 1`,
`fiatSize = 1000`, `plan_multi_leg_path` computes
`assetAfterP2P ≈ 990.10`, `assetAfterTransfer ≈ 989.10`,
`sellUnitNet = 1.02897`, `proceeds ≈ 1017.75`, `profit ≈ 17.75` and
`roiPct ≈ 1.7753%`, each within `1e-3` relative tolerance of the stated
value, and returns a Multi_Leg opportunity carrying that profit and ROI. -/
theorem plan_multi_leg_scenario :
    plan_multi_leg_path (some quoteW) (some 1) feesW 1 (some (103/100)) feesW 1000 "RUB" "USDT" =
      some (Opportunity.mk OppKind.Multi_Leg (179307403/10100000) (179307403/101000000)) ∧
    |1000 / quoteW.price - 99010/100| ≤ (1/1000) * (99010/100) ∧
    |(1000 / quoteW.price - 1) - 98910/100| ≤ (1/1000) * (98910/100) ∧
    (103/100) * (1 - feesW.taker_rate) = 102897/100000 ∧
    |(103/100) * (1 - feesW.taker_rate) * (1000 / quoteW.price - 1) - 101775/100|
      ≤ (1/1000) * (101775/100) ∧
    |(179307403/10100000 : ℚ) - 1775/100| ≤ (1/1000) * (1775/100) ∧
    |(179307403/101000000 : ℚ) - 17753/10000| ≤ (1/1000) * (17753/10000) := by
  refine ⟨?_, ?_, ?_, ?_, ?_, ?_, ?_⟩
  · norm_num [plan_multi_leg_path, quoteW, feesW, max_def]
  · rw [abs_le]; norm_num [quoteW]
  · rw [abs_le]; norm_num [quoteW]
  · norm_num [feesW]
  · rw [abs_le]; norm_num [quoteW, feesW]
  · rw [abs_le]; norm_num
  · rw [abs_le]; norm_num

/-! ## Claim C8 -/

/-- C8, counterexample: the claim defines `roiPct = 100 × (proceeds −
fiatSize)/fiatSize` with no caveat.  At the (degenerate) input below the
profit step is reached (post-transfer amount `1000 > 0`) and the claim's
roiPct is `100 × (-2000 - (-1000))/(-1000) = 100 > 0`, so by the claim a
Multi_Leg opportunity must be returned; the code, whose guard sets
`roi_pct` to `0` unless `cost_fiat > 0`, returns `none`. -/
theorem plan_multi_leg_threshold_cex :
    plan_multi_leg_path (some (P2PQuote.mk "USDT" "RUB" "BUY" (-1) 0 0)) (some 1)
        zeroFees 0 (some (-2)) zeroFees (-1000) "RUB" "USDT" = none ∧
    0 < max ((-1000 : ℚ) / (-1) - 0) 0 ∧
    0 < 100 * ((((-2) * (1 - zeroFees.taker_rate) * max ((-1000 : ℚ) / (-1) - 0) 0)
      - (-1000)) / (-1000)) := by
  refine ⟨?_, by norm_num [max_def], by norm_num [zeroFees, max_def]⟩
  norm_num [plan_multi_leg_path, max_def]

/-- C8 (amended): for every input on which `plan_multi_leg_path` reaches
the profit step (all three price inputs present, positive post-transfer
asset amount) and `fiatSize > 0`, with `roiPct = 100 × (proceeds −
fiatSize)/fiatSize`, the function returns a Multi_Leg opportunity
carrying `profit = proceeds − fiatSize` and that roiPct if and only if
`roiPct > 0`, and returns `none` when `roiPct ≤ 0`; no caller-supplied
threshold is applied inside the function. -/
theorem plan_multi_leg_emission (q : P2PQuote) (b : ℚ) (spot_buy_fees : TradingFees)
    (tfee : ℚ) (p : ℚ) (spot_sell_fees : TradingFees) (size : ℚ) (fiat asset : String)
    (hsize : 0 < size) (hafter : 0 < size / q.price - tfee) :
    plan_multi_leg_path (some q) (some b) spot_buy_fees tfee (some p)
        spot_sell_fees size fiat asset =
      (let proceeds := p * (1 - spot_sell_fees.taker_rate) * max (size / q.price - tfee) 0
       let roi := 100 * ((proceeds - size) / size)
       if 0 < roi then some (Opportunity.mk OppKind.Multi_Leg (proceeds - size) roi)
       else none) := by
  have hmax : ¬ max (size / q.price - tfee) 0 ≤ 0 :=
    not_le.mpr (lt_max_iff.mpr (Or.inl hafter))
  unfold plan_multi_leg_path
  simp only [if_neg hmax, gt_iff_lt, if_pos hsize]
  by_cases h : (100 * ((p * (1 - spot_sell_fees.taker_rate) * max (size / q.price - tfee) 0
      - size) / size)) ≤ 0
  · rw [if_pos h, if_neg (not_lt.mpr h)]
  · rw [if_neg h, if_pos (lt_of_not_le h)]

/-- C8 witness: P2P price 1, no transfer fee, spot sell at 2 with zero
fees on 1000 fiat — roiPct `100 > 0`, so a Multi_Leg opportunity with
profit 1000 is returned. -/
theorem plan_multi_leg_emission_witness :
    plan_multi_leg_path (some (P2PQuote.mk "USDT" "RUB" "BUY" 1 0 0)) (some 1)
        zeroFees 0 (some 2) zeroFees 1000 "RUB" "USDT" =
      some (Opportunity.mk OppKind.Multi_Leg 1000 100) := by
  have h := plan_multi_leg_emission (P2PQuote.mk "USDT" "RUB" "BUY" 1 0 0) 1 zeroFees
    0 2 zeroFees 1000 "RUB" "USDT" (by norm_num) (by norm_num)
  rw [h]
  norm_num [zeroFees, max_def]

/-! ## Claim C10 -/

/-- C10: `plan_multi_leg_path` returns `none` whenever any of `p2p_buy`,
`spot_buy_price`, `spot_sell_price` is `None`; and the value of a
non-`None` `spot_buy_price` never affects the result. -/
theorem plan_multi_leg_inputs :
    (∀ (p2p : Option P2PQuote) (sbp ssp : Option ℚ) (sbf ssf : TradingFees)
        (tfee size : ℚ) (fiat asset : String),
      p2p = none ∨ sbp = none ∨ ssp = none →
      plan_multi_leg_path p2p sbp sbf tfee ssp ssf size fiat asset = none) ∧
    (∀ (q : P2PQuote) (b1 b2 p : ℚ) (sbf ssf : TradingFees)
        (tfee size : ℚ) (fiat asset : String),
      plan_multi_leg_path (some q) (some b1) sbf tfee (some p) ssf size fiat asset =
      plan_multi_leg_path (some q) (some b2) sbf tfee (some p) ssf size fiat asset) := by
  constructor
  · intro p2p sbp ssp sbf ssf tfee size fiat asset h
    rcases h with h | h | h
    · subst h; cases sbp <;> cases ssp <;> rfl
    · subst h; cases p2p <;> cases ssp <;> rfl
    · subst h; cases p2p <;> cases sbp <;> rfl
  · intro q b1 b2 p sbf ssf tfee size fiat asset
    rfl

/-- C10 witness: a missing P2P quote yields `none`, and two different
spot buy prices (37 and 42) give identical results. -/
theorem plan_multi_leg_inputs_witness :
    plan_multi_leg_path none (some 1) zeroFees 0 (some 2) zeroFees 1000 "RUB" "USDT" = none ∧
    plan_multi_leg_path (some (P2PQuote.mk "USDT" "RUB" "BUY" 1 0 0)) (some 37)
        zeroFees 0 (some 2) zeroFees 1000 "RUB" "USDT" =
      plan_multi_leg_path (some (P2PQuote.mk "USDT" "RUB" "BUY" 1 0 0)) (some 42)
        zeroFees 0 (some 2) zeroFees 1000 "RUB" "USDT" :=
  ⟨plan_multi_leg_inputs.1 none (some 1) (some 2) zeroFees zeroFees 0 1000 "RUB" "USDT"
      (Or.inl rfl),
    plan_multi_leg_inputs.2 (P2PQuote.mk "USDT" "RUB" "BUY" 1 0 0) 37 42 2 zeroFees zeroFees
      0 1000 "RUB" "USDT"⟩

/-! ## Claim C9

The value components of `bestStep` form min/max reductions over the
asks/bids present in the responses; these are right-commutative, so any
two completion orders of the same responses give the same best values. -/

/-- The ask-value component of `bestStep`. -/
def askStep (acc : Option ℚ) (r : VenueQuote) : Option ℚ :=
  match r.ask, acc with
  | none, _ => acc
  | some a, none => some a
  | some a, some v => some (min v a)

/-- The bid-value component of `bestStep`. -/
def bidStep (acc : Option ℚ) (r : VenueQuote) : Option ℚ :=
  match r.bid, acc with
  | none, _ => acc
  | some b, none => some b
  | some b, some v => some (max v b)

theorem bestStep_ask_val (st : BestLevels) (r : VenueQuote) :
    (bestStep st r).best_ask_val = askStep st.best_ask_val r := by
  rcases st with ⟨av, ae, bv, be⟩
  rcases r with ⟨ex, ask, bid⟩
  rcases ask with _ | a <;> rcases av with _ | v <;> rcases bid with _ | b <;> rcases bv with _ | w <;>
      dsimp only [bestStep, askStep] <;> (try split_ifs) <;>
      dsimp only <;> (try split_ifs) <;>
      simp [min_def] <;> (try split_ifs) <;> first | rfl | linarith

theorem bestStep_bid_val (st : BestLevels) (r : VenueQuote) :
    (bestStep st r).best_bid_val = bidStep st.best_bid_val r := by
  rcases st with ⟨av, ae, bv, be⟩
  rcases r with ⟨ex, ask, bid⟩
  rcases ask with _ | a <;> rcases av with _ | v <;> rcases bid with _ | b <;> rcases bv with _ | w <;>
      dsimp only [bestStep, bidStep] <;> (try split_ifs) <;>
      dsimp only <;> (try split_ifs) <;>
      simp [max_def] <;> (try split_ifs) <;> first | rfl | linarith

theorem foldl_bestStep_ask (rs : List VenueQuote) :
    ∀ st : BestLevels, (rs.foldl bestStep st).best_ask_val = rs.foldl askStep st.best_ask_val := by
  induction rs with
  | nil => intro st; rfl
  | cons r rs ih =>
    intro st
    simp only [List.foldl_cons]
    rw [ih (bestStep st r), bestStep_ask_val]

theorem foldl_bestStep_bid (rs : List VenueQuote) :
    ∀ st : BestLevels, (rs.foldl bestStep st).best_bid_val = rs.foldl bidStep st.best_bid_val := by
  induction rs with
  | nil => intro st; rfl
  | cons r rs ih =>
    intro st
    simp only [List.foldl_cons]
    rw [ih (bestStep st r), bestStep_bid_val]

theorem foldl_perm_of_comm {α β : Type} (f : β → α → β)
    (hf : ∀ b x y, f (f b x) y = f (f b y) x) :
    ∀ {l₁ l₂ : List α}, l₁.Perm l₂ → ∀ b, l₁.foldl f b = l₂.foldl f b := by
  intro l₁ l₂ h
  induction h with
  | nil => intro b; rfl
  | cons x h ih => intro b; simp only [List.foldl_cons]; exact ih _
  | swap x y l => intro b; simp only [List.foldl_cons]; rw [hf]
  | trans h1 h2 ih1 ih2 => intro b; rw [ih1, ih2]

theorem askStep_comm (b : Option ℚ) (x y : VenueQuote) :
    askStep (askStep b x) y = askStep (askStep b y) x := by
  rcases x with ⟨xe, xa, xb⟩
  rcases y with ⟨ye, ya, yb⟩
  cases xa <;> cases ya <;> cases b <;>
    simp [askStep, min_comm, min_assoc, min_left_comm]

theorem bidStep_comm (b : Option ℚ) (x y : VenueQuote) :
    bidStep (bidStep b x) y = bidStep (bidStep b y) x := by
  rcases x with ⟨xe, xa, xb⟩
  rcases y with ⟨ye, ya, yb⟩
  cases xb <;> cases yb <;> cases b <;>
    simp [bidStep, max_comm, max_assoc, max_left_comm]

/-- C9: the per-symbol best-ask/best-bid aggregation of
`scan_symbols_once` is order-independent in its values: for every two
arrival orders (permutations) of the same per-venue responses, the
resulting best-ask value and best-bid value are equal (only the venue
recorded on an exact tie may differ). -/
theorem foldBest_perm_invariant (rs₁ rs₂ : List VenueQuote) (h : rs₁.Perm rs₂) :
    (foldBest rs₁).best_ask_val = (foldBest rs₂).best_ask_val ∧
    (foldBest rs₁).best_bid_val = (foldBest rs₂).best_bid_val := by
  unfold foldBest
  rw [foldl_bestStep_ask, foldl_bestStep_ask, foldl_bestStep_bid, foldl_bestStep_bid]
  exact ⟨foldl_perm_of_comm askStep askStep_comm h _,
    foldl_perm_of_comm bidStep bidStep_comm h _⟩

/-- C9 witness: two arrival orders of the same two venue responses give
the same best ask and best bid values. -/
theorem foldBest_perm_invariant_witness :
    (foldBest [VenueQuote.mk "a" (some 5) (some 1), VenueQuote.mk "b" (some 3) (some 2)]).best_ask_val =
      (foldBest [VenueQuote.mk "b" (some 3) (some 2), VenueQuote.mk "a" (some 5) (some 1)]).best_ask_val ∧
    (foldBest [VenueQuote.mk "a" (some 5) (some 1), VenueQuote.mk "b" (some 3) (some 2)]).best_bid_val =
      (foldBest [VenueQuote.mk "b" (some 3) (some 2), VenueQuote.mk "a" (some 5) (some 1)]).best_bid_val :=
  foldBest_perm_invariant _ _ (by decide)

/-! ## Claim C4 -/

/-- C4: every row emitted by `scan_symbols_once` comes from a per-symbol
emission (first conjunct), and every per-symbol emission satisfies all
emission gates (second conjunct): its ROI field is `≥ threshold` and
equals `100 × (bestBid × size/bestAsk − size)/size`; its best ask and
best bid were both found and their venues differ; and when
`minVolume > 0` both venues' fetched volumes for the symbol (missing
volume counting as 0) are `≥ minVolume`. -/
theorem scan_rows_gated (symbols : List String) (responses : String → List VenueQuote)
    (vols : String → String → ℚ) (limits : String → String → MarketLimits)
    (size threshold min_volume : ℚ) (enforce_lots : Bool) (hsize : 0 < size) :
    (∀ r ∈ scan_symbols_once symbols responses vols limits size threshold min_volume enforce_lots,
      ∃ sym ∈ symbols,
        scan_symbol (responses sym) vols limits sym size threshold min_volume enforce_lots =
          some r) ∧
    (∀ sym r,
      scan_symbol (responses sym) vols limits sym size threshold min_volume enforce_lots =
        some r →
      threshold ≤ r.roi ∧
      r.roi = 100 * (r.bid_val * (size / r.ask_val) - size) / size ∧
      (foldBest (responses sym)).best_ask_val = some r.ask_val ∧
      (foldBest (responses sym)).best_bid_val = some r.bid_val ∧
      (foldBest (responses sym)).best_ask_ex ≠ (foldBest (responses sym)).best_bid_ex ∧
      (0 < min_volume →
        min_volume ≤ vols (pyOr (foldBest (responses sym)).best_ask_ex "") sym ∧
        min_volume ≤ vols (pyOr (foldBest (responses sym)).best_bid_ex "") sym)) := by
  constructor
  · intro r hr
    unfold scan_symbols_once at hr
    exact List.mem_filterMap.mp hr
  · intro sym r h
    simp only [scan_symbol] at h
    rcases hav : (foldBest (responses sym)).best_ask_val with _ | av <;> rw [hav] at h
    · exact absurd h (by simp)
    · rcases hbv : (foldBest (responses sym)).best_bid_val with _ | bv <;> rw [hbv] at h
      · exact absurd h (by simp)
      · dsimp only at h
        rw [if_pos (show size > 0 from hsize)] at h
        split_ifs at h with hex hvol hlot hth
        obtain rfl : r = ScanRow.mk sym (pyOr (foldBest (responses sym)).best_ask_ex "?") av
            (pyOr (foldBest (responses sym)).best_bid_ex "?") bv
            (100 * (bv * (size / av) - size) / size)
            (bv * (size / av) - size) := (Option.some.inj h).symm
        push_neg at hvol
        exact ⟨hth, rfl, rfl, rfl, hex, hvol⟩

/-- Responses of two venues for one symbol: best ask 10 on `e1`, best bid
12 on `e2`. -/
def respW : List VenueQuote :=
  [VenueQuote.mk "e1" (some 10) (some 9), VenueQuote.mk "e2" (some 11) (some 12)]

/-- The row emitted for `respW` at size 1000: ROI 20%, profit 200. -/
def rowW : ScanRow := ScanRow.mk "X" "e1" 10 "e2" 12 20 200

/-- C4 witness: with volumes 100 against `minVolume = 5` and threshold 0,
the emitted row for `respW` satisfies every gate. -/
theorem scan_rows_gated_witness :
    (0:ℚ) ≤ rowW.roi ∧
    rowW.roi = 100 * (rowW.bid_val * (1000 / rowW.ask_val) - 1000) / 1000 ∧
    (foldBest respW).best_ask_val = some rowW.ask_val ∧
    (foldBest respW).best_bid_val = some rowW.bid_val ∧
    (foldBest respW).best_ask_ex ≠ (foldBest respW).best_bid_ex ∧
    ((0:ℚ) < 5 → (5:ℚ) ≤ 100 ∧ (5:ℚ) ≤ 100) :=
  (scan_rows_gated ["X"] (fun _ => respW) (fun _ _ => 100) (fun _ _ => MarketLimits.mk 0 0)
      1000 0 5 false (by norm_num)).2 "X" rowW
    (by norm_num [scan_symbol, foldBest, bestStep, initBest, pyOr, truthy, respW, rowW]
        decide)

/-! ## Claim C6 -/

/-- The ROI carried by a returned opportunity, if one was returned. -/
def roiOf : Except String (Option Opportunity) → Option ℚ
  | Except.ok (some o) => some o.expected_roi_pct
  | _ => none

/-- Pointwise comparison of two level lists: same length, levelwise
`price ≤ price` with equal amounts. -/
def levelsLE (xs ys : List PriceLevel) : Prop :=
  xs.length = ys.length ∧
  ∀ p ∈ xs.zip ys, p.1.price ≤ p.2.price ∧ p.1.amount = p.2.amount

/-- Raising prices pointwise (amounts unchanged) can only raise the
accumulated notional of the walk, and leaves the remainder unchanged. -/
theorem walkLevels_price_mono (xs : List PriceLevel) :
    ∀ (ys : List PriceLevel), levelsLE xs ys →
    ∀ (r a b : ℚ), 0 ≤ r → a ≤ b → (∀ l ∈ xs, 0 ≤ l.amount) →
    (walkLevels xs r a).1 ≤ (walkLevels ys r b).1 ∧
    (walkLevels xs r a).2 = (walkLevels ys r b).2 := by
  induction xs with
  | nil =>
    intro ys h r a b hr hab _
    have : ys = [] := List.length_eq_zero.mp h.1.symm
    subst this
    exact ⟨hab, rfl⟩
  | cons x xs ih =>
    intro ys h r a b hr hab hamt
    rcases ys with _ | ⟨y, ys⟩
    · exact absurd h.1 (by simp)
    · have hxy : x.price ≤ y.price ∧ x.amount = y.amount :=
        h.2 (x, y) (by rw [List.zip_cons_cons]; exact List.mem_cons_self _ _)
      have htail : levelsLE xs ys :=
        ⟨by simpa using h.1,
          fun p hp => h.2 p (by rw [List.zip_cons_cons]; exact List.mem_cons_of_mem _ hp)⟩
      have htake0 : 0 ≤ min x.amount r := le_min (hamt x (by simp)) hr
      have hstep : a + min x.amount r * x.price ≤ b + min x.amount r * y.price :=
        add_le_add hab (mul_le_mul_of_nonneg_left hxy.1 htake0)
      simp only [walkLevels]
      rw [show y.amount = x.amount from hxy.2.symm]
      by_cases hbr : r - min x.amount r ≤ 0
      · rw [if_pos hbr, if_pos hbr]
        exact ⟨hstep, rfl⟩
      · rw [if_neg hbr, if_neg hbr]
        exact ih ys htail (r - min x.amount r) _ _
          (by linarith [min_le_right x.amount r]) hstep
          (fun l hl => hamt l (by simp [hl]))

/-- C6, counterexample: the claim also allows widening the gap by
lowering `bookA`'s ask prices.  Lowering the top ask from 100 to 1
(amounts unchanged) inflates the top-of-book quantity approximation
`size / bookA.asks[0].price` from 10 to 1000 base units, which drives
the buy walk deep into the 1000-priced second level: the buy average
rises from 100 to 990.01, the sell quantity shrinks, and the computed
ROI falls from −50% to ≈ −94.95%. -/
theorem find_cex_cex_mono_cex :
    levelsLE (OrderBook.mk "X/Q" [] [PriceLevel.mk 1 10, PriceLevel.mk 1000 1000] "a").asks
      (OrderBook.mk "X/Q" [] [PriceLevel.mk 100 10, PriceLevel.mk 1000 1000] "a").asks ∧
    roiOf (find_cex_cex_opportunity "X" "Q" 1000
        (OrderBook.mk "X/Q" [] [PriceLevel.mk 100 10, PriceLevel.mk 1000 1000] "a")
        (OrderBook.mk "X/Q" [PriceLevel.mk 50 100] [] "b")
        zeroFees zeroFees (-10000) 0) = some (-50) ∧
    roiOf (find_cex_cex_opportunity "X" "Q" 1000
        (OrderBook.mk "X/Q" [] [PriceLevel.mk 1 10, PriceLevel.mk 1000 1000] "a")
        (OrderBook.mk "X/Q" [PriceLevel.mk 50 100] [] "b")
        zeroFees zeroFees (-10000) 0) = some (-9400100/99001) ∧
    (-9400100/99001 : ℚ) < -50 := by
  refine ⟨?_, ?_, ?_, by norm_num⟩
  · constructor
    · rfl
    · intro p hp
      fin_cases hp <;> norm_num
  · norm_num [roiOf, find_cex_cex_opportunity, executable_price, walkLevels, sideLevels,
      apply_taker_fee, zeroFees, max_def]
  · norm_num [roiOf, find_cex_cex_opportunity, executable_price, walkLevels, sideLevels,
      apply_taker_fee, zeroFees, max_def]

/-- C6 (amended): with fees, transfer fee and `bookA` held constant,
raising `bookB`'s bid prices pointwise (level amounts unchanged,
amounts nonnegative per the data model, taker rate `≤ 1`) never
decreases the computed ROI: if the original call returns an
opportunity, so does the raised-bid call, with an ROI at least as
large.  Lowering `bookA`'s ask prices is dropped from the claim: the
top-of-book quantity approximation can then decrease the ROI (see the
counterexample). -/
theorem find_cex_cex_bid_mono (base_symbol quote_symbol : String) (size : ℚ)
    (book_a book_b book_b2 : OrderBook) (fees_a fees_b : TradingFees)
    (threshold tfee : ℚ) (o : Opportunity)
    (hb : levelsLE book_b.bids book_b2.bids)
    (hamt : ∀ l ∈ book_b.bids, 0 ≤ l.amount)
    (hfee : fees_b.taker_rate ≤ 1)
    (h : find_cex_cex_opportunity base_symbol quote_symbol size book_a book_b fees_a
        fees_b threshold tfee = Except.ok (some o)) :
    roiOf (find_cex_cex_opportunity base_symbol quote_symbol size book_a book_b2 fees_a
        fees_b threshold tfee) ≠ none ∧
    o.expected_roi_pct ≤
      (roiOf (find_cex_cex_opportunity base_symbol quote_symbol size book_a book_b2 fees_a
        fees_b threshold tfee)).getD 0 := by
  rcases hA : book_a.asks with _ | ⟨a0, rest⟩ <;>
    simp only [find_cex_cex_opportunity, hA, ge_iff_le, gt_iff_lt] at h ⊢
  · exact absurd h (by simp)
  cases hbuy : executable_price book_a Side.buy (size / max a0.price (1 / 1000000000)) with
  | none => rw [hbuy] at h; exact absurd h (by simp)
  | some bap =>
    rw [hbuy] at h
    dsimp only at h ⊢
    by_cases hle : max (size / bap - tfee) 0 ≤ 0
    · rw [if_pos hle] at h; exact absurd h (by simp)
    rw [if_neg hle] at h ⊢
    have hbpos : 0 < max (size / bap - tfee) 0 := lt_of_not_le hle
    cases hsell : executable_price book_b Side.sell (max (size / bap - tfee) 0) with
    | none => rw [hsell] at h; exact absurd h (by simp)
    | some sap =>
      rw [hsell] at h
      dsimp only at h
      have hmono := walkLevels_price_mono book_b.bids book_b2.bids hb
        (max (size / bap - tfee) 0) 0 0 (le_of_lt hbpos) le_rfl hamt
      simp only [executable_price, sideLevels] at hsell
      split_ifs at hsell with hw
      have hsap : (walkLevels book_b.bids (max (size / bap - tfee) 0) 0).1 /
          max (size / bap - tfee) 0 = sap := Option.some.inj hsell
      have hsell2 : executable_price book_b2 Side.sell (max (size / bap - tfee) 0) =
          some ((walkLevels book_b2.bids (max (size / bap - tfee) 0) 0).1 /
            max (size / bap - tfee) 0) := by
        simp only [executable_price, sideLevels]
        rw [← hmono.2, if_neg hw]
      rw [hsell2]
      have hsap2 : sap ≤ (walkLevels book_b2.bids (max (size / bap - tfee) 0) 0).1 /
          max (size / bap - tfee) 0 := by
        rw [← hsap]
        exact (div_le_div_iff_of_pos_right hbpos).mpr hmono.1
      have h1t : (0:ℚ) ≤ 1 - fees_b.taker_rate := by linarith
      have hproc : apply_taker_fee sap (max (size / bap - tfee) 0) fees_b Side.sell *
            max (size / bap - tfee) 0 ≤
          apply_taker_fee ((walkLevels book_b2.bids (max (size / bap - tfee) 0) 0).1 /
            max (size / bap - tfee) 0) (max (size / bap - tfee) 0) fees_b Side.sell *
            max (size / bap - tfee) 0 := by
        simp only [apply_taker_fee]
        exact mul_le_mul_of_nonneg_right (mul_le_mul_of_nonneg_right hsap2 h1t)
          (le_of_lt hbpos)
      dsimp only
      split_ifs at h with hcost hth hth0
      · -- cost positive: the ROI is the 100·(profit/cost) formula on both sides
        obtain rfl : o = Opportunity.mk OppKind.CEX_CEX _ _ :=
          (Option.some.inj (Except.ok.inj h)).symm
        have hroile : 100 * ((apply_taker_fee sap (max (size / bap - tfee) 0) fees_b Side.sell *
              max (size / bap - tfee) 0 -
              apply_taker_fee bap (size / bap) fees_a Side.buy * (size / bap)) /
              (apply_taker_fee bap (size / bap) fees_a Side.buy * (size / bap))) ≤
            100 * ((apply_taker_fee ((walkLevels book_b2.bids (max (size / bap - tfee) 0) 0).1 /
              max (size / bap - tfee) 0) (max (size / bap - tfee) 0) fees_b Side.sell *
              max (size / bap - tfee) 0 -
              apply_taker_fee bap (size / bap) fees_a Side.buy * (size / bap)) /
              (apply_taker_fee bap (size / bap) fees_a Side.buy * (size / bap))) :=
          mul_le_mul_of_nonneg_left
            ((div_le_div_iff_of_pos_right hcost).mpr (by linarith)) (by norm_num)
        rw [if_pos hcost, if_pos (le_trans hth hroile)]
        exact ⟨by simp [roiOf], by simpa [roiOf] using hroile⟩
      · exact absurd h (by simp)
      · -- cost not positive: the ROI is 0 on both sides
        obtain rfl : o = Opportunity.mk OppKind.CEX_CEX _ _ :=
          (Option.some.inj (Except.ok.inj h)).symm
        rw [if_neg hcost, if_pos hth0]
        exact ⟨by simp [roiOf], by simp [roiOf]⟩
      · exact absurd h (by simp)

/-- C6 witness: raising the lone bid of `bookB` from 50 to 51 (amount
unchanged) turns the emitted ROI of −50% into −49%: the raised-bid call
still returns an opportunity and its ROI did not decrease. -/
theorem find_cex_cex_bid_mono_witness :
    roiOf (find_cex_cex_opportunity "X" "Q" 1000
        (OrderBook.mk "X/Q" [] [PriceLevel.mk 100 10] "a")
        (OrderBook.mk "X/Q" [PriceLevel.mk 51 100] [] "b")
        zeroFees zeroFees (-10000) 0) ≠ none ∧
    (Opportunity.mk OppKind.CEX_CEX (-500) (-50)).expected_roi_pct ≤
      (roiOf (find_cex_cex_opportunity "X" "Q" 1000
        (OrderBook.mk "X/Q" [] [PriceLevel.mk 100 10] "a")
        (OrderBook.mk "X/Q" [PriceLevel.mk 51 100] [] "b")
        zeroFees zeroFees (-10000) 0)).getD 0 :=
  find_cex_cex_bid_mono "X" "Q" 1000
    (OrderBook.mk "X/Q" [] [PriceLevel.mk 100 10] "a")
    (OrderBook.mk "X/Q" [PriceLevel.mk 50 100] [] "b")
    (OrderBook.mk "X/Q" [PriceLevel.mk 51 100] [] "b")
    zeroFees zeroFees (-10000) 0 (Opportunity.mk OppKind.CEX_CEX (-500) (-50))
    (by refine ⟨rfl, ?_⟩; intro p hp; fin_cases hp <;> norm_num)
    (by intro l hl; fin_cases hl <;> norm_num)
    (by norm_num [zeroFees])
    (by norm_num [find_cex_cex_opportunity, executable_price, walkLevels, sideLevels,
      apply_taker_fee, zeroFees, max_def])

end Crypto2
